import Mathlib

/-!
Verification of the numeral formatters and the layout planner of the
soc-credit bot (src/main.rs).

The two formatters (`format_latin_number`, `format_chinese_number`) and the
pure layout decisions made inside `render` are embedded as executable Lean
functions over `Int` (the Rust `i32` values) and `List Char` (the character
sequences of the Rust `String`s).  The Rust `while` loops are modelled as
fuel-indexed structural recursions; every call site passes fuel that is
strictly larger than the number of iterations the loop can perform (the loop
variable is divided by 10 at each step), so the exhaustion branch is
unreachable and the fuel-free semantics of the source are realized exactly.

Machine-integer caveat: the only i32 operation in the formatters that can
overflow is `number.abs()` at `i32::MIN`; there it wraps to `i32::MIN` when
overflow checks are disabled (release builds, the deployed configuration).
`i32abs` models exactly that.  Every other arithmetic operation in the
formatters stays far inside the i32 range, and every `/` and `%` is applied
to non-negative operands, where Rust's truncated division and Lean's
Euclidean division on `Int` coincide.
-/

/-- The nine digit glyphs, `DIGITS` in the source (a `&str` indexed by chars). -/
def DIGITS : List Char := ['一', '二', '三', '四', '五', '六', '七', '八', '九']

/-- The three scale-exponent glyphs (tens, hundreds, thousands), `EXPONENTS`. -/
def EXPONENTS : List Char := ['十', '百', '千']

/-- The zero glyph, `ZERO_MARK`. -/
def ZERO_MARK : Char := '零'

/-- The myriad separator, `MYRIAD_MARK` (a one-character `&str` in the source). -/
def MYRIAD_MARK : Char := '万'

/-- The special two-glyph used at the thousands position, `TWO_MARK_FOR_THOUSANDS`. -/
def TWO_MARK_FOR_THOUSANDS : Char := '两'

/-- `CHINESE_SUFFIX`, appended to the East-Asian numeral for display. -/
def CHINESE_SUFFIX : List Char := ['社', '会', '信', '用']

/-- `LATIN_SUFFIX_SHORT`. -/
def LATIN_SUFFIX_SHORT : List Char := "Soc. Credit".toList

/-- `LATIN_SUFFIX_FULL`. -/
def LATIN_SUFFIX_FULL : List Char := "Social Credit".toList

/-- Rust `i32::abs` as it behaves in the deployed (release) configuration:
at `i32::MIN` the negation overflows and wraps back to `i32::MIN`; everywhere
else on the i32 range it is the mathematical absolute value. -/
def i32abs (n : Int) : Int :=
  if n = -2147483648 then -2147483648 else if n < 0 then -n else n

/-- The trailing-zero counting loop of `format_latin_number`
(`while cur > 0 && (cur % 10 == 0) { cur /= 10; max_exp += 1 }`),
modelled with explicit fuel.  Both conjuncts of the guard are pure, so the
non-short-circuit `∧` is equivalent to Rust's `&&`.  All call sites pass
`cur.natAbs + 1` fuel, which exceeds the possible number of iterations. -/
def maxExpLoopF : Nat → Int → Nat → Nat
  | 0, _, max_exp => max_exp
  | fuel + 1, cur, max_exp =>
    if 0 < cur ∧ cur % 10 = 0 then maxExpLoopF fuel (cur / 10) (max_exp + 1)
    else max_exp

/-- Rust `i32::to_string` (decimal digits, `-` sign for negative values). -/
def intToString (n : Int) : List Char :=
  if n < 0 then '-' :: Nat.toDigits 10 n.natAbs else Nat.toDigits 10 n.natAbs

/-- `format_latin_number` (src/main.rs lines 34-59). -/
def format_latin_number (number : Int) : Option (List Char) :=
  let abs := i32abs number
  if abs = 0 ∨ 100000000 ≤ abs then none
  else
    let max_exp := maxExpLoopF (abs.natAbs + 1) abs 0
    match max_exp / 3 with
    | 0 => some (intToString abs)
    | 1 => some (intToString (abs / 1000) ++ ['k'])
    | 2 => some (intToString (abs / 1000000) ++ ['m'])
    | _ + 3 => none

/-- The digit-by-digit loop of `format_chinese_number` (lines 87-110), with
explicit fuel.  `abs`, `exp` and `result` are the Rust mutable locals; one
recursive call is one iteration of `while abs > 0`.  The two `Option`
lookups model the `?` operators on `DIGITS.chars().nth(digit - 1)` and
`EXPONENTS.chars().nth(exp - 1)` (the latter is what fails for input 10000,
where the loop reaches `exp == 4`).  Call sites pass `abs.natAbs + 1` fuel,
which exceeds the number of iterations (`abs` is divided by 10 each step). -/
def chineseDigitLoopF : Nat → Int → Nat → List Char → Option (List Char)
  | 0, _, _, _ => none
  | fuel + 1, abs, exp, result =>
    if abs ≤ 0 then some result
    else
      let digit := abs % 10
      if digit = 0 then
        chineseDigitLoopF fuel (abs / 10) (exp + 1)
          (if result ≠ [] ∧ result.head? ≠ some ZERO_MARK then ZERO_MARK :: result
           else result)
      else
        match (if exp = 3 ∧ digit = 2 then some TWO_MARK_FOR_THOUSANDS
               else DIGITS.get? (digit - 1).toNat),
              (if exp = 0 then some []
               else (EXPONENTS.get? (exp - 1)).map (fun c => [c])) with
        | some digit_char, some exponent =>
          chineseDigitLoopF fuel (abs / 10) (exp + 1) (digit_char :: (exponent ++ result))
        | _, _ => none

/-- `format_chinese_number` (lines 61-113), fuel-indexed.  The recursion of
the source (the myriad split) has depth at most 2 on every input: the
recursive arguments `abs % 10000` and `abs / 10000` both lie in `[0, 9999]`
(the guard has already rejected `abs ≥ 100000000`), hence take the
non-recursive digit-loop branch.  Fuel 2 therefore realizes the source's
semantics exactly on all inputs; see `format_chinese_number` below. -/
def format_chinese_core : Nat → Int → Option (List Char)
  | 0, _ => none
  | fuel + 1, number =>
    let abs := i32abs number
    if abs = 0 ∨ 100000000 ≤ abs then none
    else if 10000 < abs then
      match (if abs % 10000 = 0 then some []
             else format_chinese_core fuel (abs % 10000)),
            format_chinese_core fuel (abs / 10000) with
      | some lower_part, some upper_part =>
        some (upper_part ++ MYRIAD_MARK :: lower_part)
      | _, _ => none
    else chineseDigitLoopF (abs.natAbs + 1) abs 0 []

/-- `format_chinese_number` (lines 61-113). -/
def format_chinese_number (number : Int) : Option (List Char) :=
  format_chinese_core 2 number

/-- The four font tiers used by `render`. -/
inductive FontTier
  | Large
  | Medium
  | Small
  | Pico
deriving DecidableEq

/-- One text-draw instruction of the render plan: the text, the font tier and
the nominal (x, y) position handed to `render_shadowed`. -/
structure DrawInstr where
  text : List Char
  font : FontTier
  x : Int
  y : Int
deriving DecidableEq

/-- Outcome of the pure layout logic of `render`: a panic (Rust
`str::split_at` called off a UTF-8 boundary), a propagated `?`-failure, or
the ordered list of draw instructions. -/
inductive PlanOutcome
  | panicked
  | failed
  | ok (instrs : List DrawInstr)
deriving DecidableEq

/-- Rust `str::split_at`, on the UTF-8 byte index `mid` of a string whose
characters are `s`: `none` models the panic when `mid` is not on a character
boundary (or exceeds the byte length), otherwise the two halves. -/
def splitAtByte : List Char → Nat → Option (List Char × List Char)
  | s, 0 => some ([], s)
  | [], _ + 1 => none
  | c :: rest, mid + 1 =>
    if c.utf8Size ≤ mid + 1 then
      (splitAtByte rest (mid + 1 - c.utf8Size)).map (fun p => (c :: p.1, p.2))
    else none

/-- The pure layout decisions of `render` (lines 141-187): the match on
`chinese_number.chars().count()` producing the Chinese draw instructions and
`latinYComp`, followed by the Latin line.  Font loading, rasterization and
encoding are external collaborators and are not part of the decision logic.
In the `> 11` arm, `chinese_number.chars().nth(splitPosition)?` is the
`?`-failure and `chinese_number.split_at(splitPosition)` is the byte-indexed
split that can panic. -/
def plan_layout (latin_number chinese_number : List Char) : PlanOutcome :=
  let cjk : PlanOutcome × Int :=
    if chinese_number.length ≤ 4 then
      (.ok [⟨chinese_number ++ CHINESE_SUFFIX, .Large, 160, 140⟩], 0)
    else if chinese_number.length = 5 then
      (.ok [⟨chinese_number ++ CHINESE_SUFFIX, .Medium, 160, 140⟩], 0)
    else if chinese_number.length = 6 then
      (.ok [⟨chinese_number ++ CHINESE_SUFFIX, .Small, 160, 140⟩], 0)
    else if chinese_number.length = 7 then
      (.ok [⟨chinese_number ++ CHINESE_SUFFIX, .Pico, 160, 135⟩], 10)
    else if chinese_number.length ≤ 11 then
      (.ok [⟨chinese_number, .Pico, 160, 110⟩, ⟨CHINESE_SUFFIX, .Pico, 160, 145⟩], 0)
    else
      match chinese_number.get? ((chinese_number.length + CHINESE_SUFFIX.length) / 2) with
      | none => (.failed, 0)
      | some firstWrappedChar =>
        let splitPosition :=
          if ¬ DIGITS.contains firstWrappedChar ∧ firstWrappedChar ≠ ZERO_MARK ∧
              firstWrappedChar ≠ TWO_MARK_FOR_THOUSANDS
          then (chinese_number.length + CHINESE_SUFFIX.length) / 2 + 1
          else (chinese_number.length + CHINESE_SUFFIX.length) / 2
        match splitAtByte chinese_number splitPosition with
        | none => (.panicked, 0)
        | some (lp, rp) =>
          (.ok [⟨lp, .Pico, 160, 110⟩, ⟨rp ++ CHINESE_SUFFIX, .Pico, 160, 145⟩], 0)
  match cjk with
  | (.ok instrs, latinYComp) =>
    let latinSuffix := if latin_number.length > 7 then LATIN_SUFFIX_SHORT else LATIN_SUFFIX_FULL
    let latinY : Int := if latin_number.length > 4 then 75 else 80
    let latinFont := if latin_number.length > 4 then FontTier.Small else FontTier.Large
    .ok (instrs ++ [⟨latin_number ++ ' ' :: latinSuffix, latinFont, 160, latinY + latinYComp⟩])
  | (other, _) => other

/-- `render_number` (lines 195-200): formats both numbers, propagating a
`None` from either formatter before any rendering happens, then lays the
sign-prefixed strings out.  The drawing/encoding half of `render` is an
external collaborator, so the value produced on success is the layout
outcome. -/
def render_number (orig_number : Int) (sig : List Char) : Option PlanOutcome :=
  match format_chinese_number orig_number with
  | none => none
  | some chinese_number =>
    match format_latin_number orig_number with
    | none => none
    | some latin_number =>
      some (plan_layout (sig ++ latin_number) (sig ++ chinese_number))

/-!  Reference decoder for the East-Asian positional reading (constructed for
the round-trip test, claim C1; this is spec-side, not source-side).  A digit
glyph contributes its value times the place value of the exponent glyph that
follows it (1 if none follows); the zero glyph contributes nothing; the part
left of a myriad marker is multiplied by 10000 and added to the part right
of it. -/

/-- Value of a digit glyph (1-9 for the `DIGITS` glyphs, 2 for the special
two-glyph). -/
def digitVal (c : Char) : Option Nat :=
  if c = TWO_MARK_FOR_THOUSANDS then some 2
  else match DIGITS.indexOf? c with
    | some i => some (i + 1)
    | none => none

/-- Place value of an exponent glyph. -/
def expVal (c : Char) : Option Nat :=
  if c = '十' then some 10
  else if c = '百' then some 100
  else if c = '千' then some 1000
  else none

/-- Decode a myriad-free group of glyphs by the positional-value rules. -/
def decodeGroup : List Char → Option Nat
  | [] => some 0
  | [c] => if c = ZERO_MARK then some 0 else digitVal c
  | c :: e :: rest' =>
    if c = ZERO_MARK then decodeGroup (e :: rest')
    else match digitVal c with
      | none => none
      | some d =>
        match expVal e with
        | some p => (decodeGroup rest').map (fun r => d * p + r)
        | none => (decodeGroup (e :: rest')).map (fun r => d + r)

/-- Decode a formatted string: the part left of the (first) myriad marker is
worth 10000 times its group value, added to the part right of it. -/
def decodeHan (s : List Char) : Option Nat :=
  match s.dropWhile (fun c => c != MYRIAD_MARK) with
  | [] => decodeGroup s
  | _ :: lower =>
    match decodeGroup (s.takeWhile (fun c => c != MYRIAD_MARK)), decodeGroup lower with
    | some u, some l => some (u * 10000 + l)
    | _, _ => none

/-!  Nat-valued copies of the two loops.  The source loops run on `i32`; on
the reachable states of interest the value is non-negative, and these copies
(with the casts removed) are what the inductive proofs manipulate.  The
`..._ofNat` lemmas below show they agree with the `Int` versions. -/

/-- `maxExpLoopF` restricted to natural inputs. -/
def maxExpLoopNat : Nat → Nat → Nat → Nat
  | 0, _, max_exp => max_exp
  | fuel + 1, cur, max_exp =>
    if 0 < cur ∧ cur % 10 = 0 then maxExpLoopNat fuel (cur / 10) (max_exp + 1)
    else max_exp

/-- `chineseDigitLoopF` restricted to natural inputs. -/
def chineseDigitLoopNat : Nat → Nat → Nat → List Char → Option (List Char)
  | 0, _, _, _ => none
  | fuel + 1, abs, exp, result =>
    if abs = 0 then some result
    else
      let digit := abs % 10
      if digit = 0 then
        chineseDigitLoopNat fuel (abs / 10) (exp + 1)
          (if result ≠ [] ∧ result.head? ≠ some ZERO_MARK then ZERO_MARK :: result
           else result)
      else
        match (if exp = 3 ∧ digit = 2 then some TWO_MARK_FOR_THOUSANDS
               else DIGITS.get? (digit - 1)),
              (if exp = 0 then some []
               else (EXPONENTS.get? (exp - 1)).map (fun c => [c])) with
        | some digit_char, some exponent =>
          chineseDigitLoopNat fuel (abs / 10) (exp + 1) (digit_char :: (exponent ++ result))
        | _, _ => none

/-- The invariant of well-formed formatter output used by claims C1 and C10:
no myriad marker (within one group), no zero glyph in last position, and no
two adjacent zero glyphs. -/
def GoodStr (s : List Char) : Prop :=
  MYRIAD_MARK ∉ s ∧ s.getLast? ≠ some ZERO_MARK ∧
    List.Chain' (fun a b => ¬(a = ZERO_MARK ∧ b = ZERO_MARK)) s

/-! Helper lemmas. -/

/-- `i32abs` is the identity on natural casts. -/
lemma i32abs_ofNat (m : Nat) : i32abs (m : Int) = (m : Int) := by
  unfold i32abs
  have h1 : (m : Int) ≠ -2147483648 := by omega
  have h2 : ¬ ((m : Int) < 0) := by omega
  simp [h1, h2]

/-- On i32 inputs other than `i32::MIN`, `i32abs` is the cast of `Int.natAbs`. -/
lemma i32abs_eq_natAbs (n : Int) (h : n ≠ -2147483648) :
    i32abs n = (n.natAbs : Int) := by
  unfold i32abs
  rw [if_neg h]
  by_cases h2 : n < 0
  · rw [if_pos h2]; omega
  · rw [if_neg h2]; omega

/-- The nine-glyph digit table: each `d ∈ [1, 9]` has a glyph at index `d - 1`
whose decoded value is `d`, and it is neither the zero glyph nor the myriad
marker. -/
lemma digitGlyph_exists (d : Nat) (h1 : 1 ≤ d) (h2 : d ≤ 9) :
    ∃ c, DIGITS.get? (d - 1) = some c ∧ digitVal c = some d ∧
      c ≠ ZERO_MARK ∧ c ≠ MYRIAD_MARK := by
  interval_cases d
  · exact ⟨'一', by decide, by decide, by decide, by decide⟩
  · exact ⟨'二', by decide, by decide, by decide, by decide⟩
  · exact ⟨'三', by decide, by decide, by decide, by decide⟩
  · exact ⟨'四', by decide, by decide, by decide, by decide⟩
  · exact ⟨'五', by decide, by decide, by decide, by decide⟩
  · exact ⟨'六', by decide, by decide, by decide, by decide⟩
  · exact ⟨'七', by decide, by decide, by decide, by decide⟩
  · exact ⟨'八', by decide, by decide, by decide, by decide⟩
  · exact ⟨'九', by decide, by decide, by decide, by decide⟩

/-- The exponent table: each `exp ∈ [1, 3]` has a glyph at index `exp - 1`
whose place value is `10 ^ exp`, and it is neither the zero glyph nor the
myriad marker. -/
lemma expGlyph_exists (e : Nat) (h1 : 1 ≤ e) (h2 : e ≤ 3) :
    ∃ c, EXPONENTS.get? (e - 1) = some c ∧ expVal c = some (10 ^ e) ∧
      c ≠ ZERO_MARK ∧ c ≠ MYRIAD_MARK := by
  interval_cases e
  · exact ⟨'十', by decide, by decide, by decide, by decide⟩
  · exact ⟨'百', by decide, by decide, by decide, by decide⟩
  · exact ⟨'千', by decide, by decide, by decide, by decide⟩

/-- A leading zero glyph contributes nothing to the decoded value. -/
lemma decodeGroup_zero_cons (rest : List Char) :
    decodeGroup (ZERO_MARK :: rest) = decodeGroup rest := by
  cases rest with
  | nil => simp [decodeGroup]
  | cons e rest' => simp [decodeGroup]

/-- A digit glyph followed by an exponent glyph contributes digit times place
value. -/
lemma decodeGroup_digit_exp (c e : Char) (rest : List Char) (d p : Nat)
    (hcz : c ≠ ZERO_MARK) (hc : digitVal c = some d) (he : expVal e = some p) :
    decodeGroup (c :: e :: rest) = (decodeGroup rest).map (fun r => d * p + r) := by
  simp [decodeGroup, hcz, hc, he]

/-- A lone digit glyph decodes to its value. -/
lemma decodeGroup_single (c : Char) (d : Nat)
    (hcz : c ≠ ZERO_MARK) (hc : digitVal c = some d) :
    decodeGroup [c] = some d := by
  simp [decodeGroup, hcz, hc]

/-- The trailing-zero loop computes the exact count of trailing zero decimal
digits: the result exceeds the accumulator by a `T` with `10 ^ T ∣ cur` and
`¬ 10 ^ (T + 1) ∣ cur`. -/
lemma maxExpLoopF_spec (fuel : Nat) : ∀ (cur acc : Nat), 0 < cur → cur < fuel →
    ∃ T, maxExpLoopF fuel (cur : Int) acc = acc + T ∧
      10 ^ T ∣ cur ∧ ¬ 10 ^ (T + 1) ∣ cur := by
  induction fuel with
  | zero => intro cur acc h1 h2; omega
  | succ fuel ih =>
    intro cur acc h1 h2
    simp only [maxExpLoopF]
    by_cases hd : cur % 10 = 0
    · rw [if_pos ⟨by omega, by omega⟩]
      have hcast : (cur : Int) / 10 = ((cur / 10 : Nat) : Int) := by omega
      rw [hcast]
      obtain ⟨T, hT, hdvd, hndvd⟩ := ih (cur / 10) (acc + 1) (by omega) (by omega)
      refine ⟨T + 1, by omega, ?_, ?_⟩
      · have h10 : cur = cur / 10 * 10 := by omega
        obtain ⟨k, hk⟩ := hdvd
        exact ⟨k, by rw [h10, hk, pow_succ]; ring⟩
      · intro hdvd2
        apply hndvd
        obtain ⟨k, hk⟩ := hdvd2
        have h10 : cur = cur / 10 * 10 := by omega
        refine ⟨k, Nat.eq_of_mul_eq_mul_right (show 0 < 10 by norm_num) ?_⟩
        rw [← h10, hk, pow_succ, pow_succ]
        ring
    · rw [if_neg (by omega)]
      refine ⟨0, by omega, by simp, ?_⟩
      intro hdvd
      have : 10 ∣ cur := by simpa using hdvd
      omega

/-- The trailing-zero count is unique. -/
lemma trailingZeros_unique (m a b : Nat)
    (ha1 : 10 ^ a ∣ m) (ha2 : ¬ 10 ^ (a + 1) ∣ m)
    (hb1 : 10 ^ b ∣ m) (hb2 : ¬ 10 ^ (b + 1) ∣ m) : a = b := by
  rcases lt_trichotomy a b with h | h | h
  · exact absurd (dvd_trans (pow_dvd_pow 10 (by omega : a + 1 ≤ b)) hb1) ha2
  · exact h
  · exact absurd (dvd_trans (pow_dvd_pow 10 (by omega : b + 1 ≤ a)) ha1) hb2

/-- Main invariant of the digit-by-digit loop, on non-negative states: if the
remaining digits fit under the thousands position (`a * 10 ^ exp ≤ 9999`) and
the accumulated `result` decodes to the already-processed low part `r`, the
loop succeeds, its output decodes to `a * 10 ^ exp + r`, satisfies the
`GoodStr` invariant, and (when digits remain) starts with a non-zero glyph. -/
lemma chineseDigitLoopF_main (f : Nat) : ∀ (a exp : Nat) (result : List Char) (r : Nat),
    a < f → a * 10 ^ exp ≤ 9999 → decodeGroup result = some r → r < 10 ^ exp →
    (exp = 0 → result = []) → GoodStr result →
    ∃ s, chineseDigitLoopF f (a : Int) exp result = some s ∧
      decodeGroup s = some (a * 10 ^ exp + r) ∧ GoodStr s ∧
      (a = 0 → s = result) ∧ (1 ≤ a → ∃ c t, s = c :: t ∧ c ≠ ZERO_MARK) := by
  induction f with
  | zero => intro a exp result r hf; omega
  | succ f ih =>
    intro a exp result r hf hbound hdec hr h0 hgood
    obtain ⟨hgm, hgl, hgc⟩ := hgood
    by_cases ha : a = 0
    · subst ha
      refine ⟨result, by simp [chineseDigitLoopF], by simpa using hdec,
        ⟨hgm, hgl, hgc⟩, fun _ => rfl, fun h => absurd h (by omega)⟩
    · have hnle : ¬ ((a : Int) ≤ 0) := by omega
      have hcastdiv : (a : Int) / 10 = ((a / 10 : Nat) : Int) := by omega
      have hbound' : a / 10 * 10 ^ (exp + 1) ≤ 9999 := by
        have h1 : a / 10 * 10 ^ (exp + 1) ≤ a * 10 ^ exp := by
          rw [pow_succ]
          calc a / 10 * (10 ^ exp * 10) = a / 10 * 10 * 10 ^ exp := by ring
            _ ≤ a * 10 ^ exp := Nat.mul_le_mul_right _ (Nat.div_mul_le_self a 10)
        omega
      simp only [chineseDigitLoopF, if_neg hnle]
      by_cases hd : a % 10 = 0
      · -- zero digit: possibly prepend the zero glyph, recurse
        have hdI : (a : Int) % 10 = 0 := by omega
        rw [if_pos hdI, hcastdiv]
        have hr' : r < 10 ^ (exp + 1) :=
          lt_of_lt_of_le hr (Nat.pow_le_pow_right (by norm_num) (by omega))
        have hval : a / 10 * 10 ^ (exp + 1) = a * 10 ^ exp := by
          rw [pow_succ]
          have h10 : a / 10 * 10 = a := by omega
          calc a / 10 * (10 ^ exp * 10) = a / 10 * 10 * 10 ^ exp := by ring
            _ = a * 10 ^ exp := by rw [h10]
        by_cases hcond : result ≠ [] ∧ result.head? ≠ some ZERO_MARK
        · rw [if_pos hcond]
          have hgood' : GoodStr (ZERO_MARK :: result) := by
            refine ⟨?_, ?_, ?_⟩
            · intro hmem
              simp only [List.mem_cons] at hmem
              rcases hmem with h | h
              · exact absurd h.symm (by decide)
              · exact hgm h
            · rcases result with _ | ⟨x, xs⟩
              · exact absurd rfl hcond.1
              · rw [List.getLast?_cons_cons]; exact hgl
            · rw [List.chain'_cons']
              refine ⟨?_, hgc⟩
              intro y hy
              rintro ⟨-, hy2⟩
              rcases result with _ | ⟨x, xs⟩
              · simp at hy
              · simp only [List.head?_cons, Option.mem_def, Option.some.injEq] at hy
                exact hcond.2 (by rw [List.head?_cons, hy, hy2])
          obtain ⟨s, hs, hsdec, hsgood, _, hshead⟩ :=
            ih (a / 10) (exp + 1) (ZERO_MARK :: result) r (by omega) hbound'
              (by rw [decodeGroup_zero_cons]; exact hdec) hr' (by omega) hgood'
          refine ⟨s, hs, by rw [hsdec, hval], hsgood,
            fun h => absurd h ha, fun _ => hshead (by omega)⟩
        · rw [if_neg hcond]
          obtain ⟨s, hs, hsdec, hsgood, _, hshead⟩ :=
            ih (a / 10) (exp + 1) result r (by omega) hbound' hdec hr' (by omega)
              ⟨hgm, hgl, hgc⟩
          refine ⟨s, hs, by rw [hsdec, hval], hsgood,
            fun h => absurd h ha, fun _ => hshead (by omega)⟩
      · -- non-zero digit: emit digit glyph and exponent glyph, recurse
        have hdI : ¬ ((a : Int) % 10 = 0) := by omega
        rw [if_neg hdI]
        have hd1 : 1 ≤ a % 10 := by omega
        have hd9 : a % 10 ≤ 9 := by omega
        have hexp3 : exp ≤ 3 := by
          by_contra hlt
          have h4 : 10 ^ 4 ≤ 10 ^ exp := Nat.pow_le_pow_right (by norm_num) (by omega)
          have hle : 10 ^ exp ≤ a * 10 ^ exp := Nat.le_mul_of_pos_left _ (by omega)
          have h14 : (10 : Nat) ^ 4 = 10000 := by norm_num
          linarith
        have htoNat : ((a : Int) % 10 - 1).toNat = a % 10 - 1 := by omega
        obtain ⟨dc, hdcEq, hdcVal, hdcZ, hdcM⟩ :
            ∃ dc, (if exp = 3 ∧ (a : Int) % 10 = 2 then some TWO_MARK_FOR_THOUSANDS
                   else DIGITS.get? ((a : Int) % 10 - 1).toNat) = some dc ∧
              digitVal dc = some (a % 10) ∧ dc ≠ ZERO_MARK ∧ dc ≠ MYRIAD_MARK := by
          by_cases htwo : exp = 3 ∧ a % 10 = 2
          · refine ⟨TWO_MARK_FOR_THOUSANDS, ?_, ?_, by decide, by decide⟩
            · rw [if_pos ⟨htwo.1, by omega⟩]
            · rw [htwo.2]; decide
          · have hnottwo : ¬ (exp = 3 ∧ (a : Int) % 10 = 2) := by
              rintro ⟨he, h2⟩; exact htwo ⟨he, by omega⟩
            obtain ⟨c, hc1, hc2, hc3, hc4⟩ := digitGlyph_exists (a % 10) hd1 hd9
            exact ⟨c, by rw [if_neg hnottwo, htoNat, hc1], hc2, hc3, hc4⟩
        rw [hdcEq]
        by_cases hexp0 : exp = 0
        · -- units position: result is still empty, no exponent glyph
          subst hexp0
          have hres0 : result = [] := h0 rfl
          subst hres0
          have hr0 : r = 0 := by
            have : (some 0 : Option Nat) = some r := by rw [← hdec]; rfl
            omega
          subst hr0
          rw [if_pos rfl, hcastdiv]
          obtain ⟨s, hs, hsdec, hsgood, hs0, hshead⟩ :=
            ih (a / 10) 1 [dc] (a % 10) (by omega)
              hbound'
              (decodeGroup_single dc (a % 10) hdcZ hdcVal)
              (by rw [pow_one]; omega)
              (by omega)
              ⟨by simp only [List.mem_singleton]; exact fun h => hdcM h.symm,
                by simp only [List.getLast?_singleton, ne_eq, Option.some.injEq]; exact hdcZ,
                by simp⟩
          refine ⟨s, hs, ?_, hsgood, fun h => absurd h ha, ?_⟩
          · rw [hsdec]
            have h1 : (10 : Nat) ^ 1 = 10 := by norm_num
            have h00 : (10 : Nat) ^ 0 = 1 := by norm_num
            rw [h1, h00]
            have : a / 10 * 10 + a % 10 = a := by omega
            rw [this]
            ring_nf
          · intro _
            by_cases hq : a / 10 = 0
            · exact ⟨dc, [], by rw [← hs0 hq], hdcZ⟩
            · exact hshead (by omega)
        · -- tens and higher: emit the exponent glyph as well
          obtain ⟨e, he1, he2, he3, he4⟩ := expGlyph_exists exp (by omega) hexp3
          rw [if_neg hexp0, he1]
          simp only [Option.map_some']
          rw [hcastdiv]
          have hrnew : a % 10 * 10 ^ exp + r < 10 ^ (exp + 1) := by
            have hle : a % 10 * 10 ^ exp ≤ 9 * 10 ^ exp := Nat.mul_le_mul_right _ hd9
            have hcalc : 9 * 10 ^ exp + 10 ^ exp = 10 ^ (exp + 1) := by
              rw [pow_succ]; ring
            exact lt_of_lt_of_eq (add_lt_add_of_le_of_lt hle hr) hcalc
          have hgood' : GoodStr (dc :: e :: result) := by
            refine ⟨?_, ?_, ?_⟩
            · intro hmem
              simp only [List.mem_cons] at hmem
              rcases hmem with h | h | h
              · exact hdcM h.symm
              · exact he4 h.symm
              · exact hgm h
            · rcases result with _ | ⟨x, xs⟩
              · rw [List.getLast?_cons_cons, List.getLast?_singleton]
                simp only [ne_eq, Option.some.injEq]
                exact he3
              · rw [List.getLast?_cons_cons, List.getLast?_cons_cons]; exact hgl
            · rw [List.chain'_cons']
              refine ⟨fun y hy => ?_, ?_⟩
              · simp only [List.head?_cons, Option.mem_def, Option.some.injEq] at hy
                subst hy
                rintro ⟨h1, -⟩
                exact hdcZ h1
              · rw [List.chain'_cons']
                refine ⟨fun y hy => ?_, hgc⟩
                rintro ⟨h1, -⟩
                exact he3 h1
          obtain ⟨s, hs, hsdec, hsgood, hs0, hshead⟩ :=
            ih (a / 10) (exp + 1) (dc :: e :: result) (a % 10 * 10 ^ exp + r)
              (by omega) hbound'
              (by rw [decodeGroup_digit_exp dc e result (a % 10) (10 ^ exp) hdcZ hdcVal he2,
                    hdec]; rfl)
              hrnew (by omega) hgood'
          refine ⟨s, hs, ?_, hsgood, fun h => absurd h ha, ?_⟩
          · rw [hsdec]
            have hsplit : a / 10 * 10 ^ (exp + 1) + (a % 10 * 10 ^ exp + r)
                = a * 10 ^ exp + r := by
              rw [pow_succ]
              have h10 : a / 10 * 10 + a % 10 = a := by omega
              calc a / 10 * (10 ^ exp * 10) + (a % 10 * 10 ^ exp + r)
                  = (a / 10 * 10 + a % 10) * 10 ^ exp + r := by ring
                _ = a * 10 ^ exp + r := by rw [h10]
            rw [hsplit]
          · intro _
            by_cases hq : a / 10 = 0
            · exact ⟨dc, e :: result, by rw [← hs0 hq], hdcZ⟩
            · exact hshead (by omega)

/-- `GoodStr` holds of the empty string. -/
lemma goodStr_nil : GoodStr [] := ⟨by simp, by simp, by simp⟩

/-- One-step unfolding of `format_chinese_core` at positive fuel. -/
lemma format_chinese_core_succ (fuel : Nat) (number : Int) :
    format_chinese_core (fuel + 1) number =
      if i32abs number = 0 ∨ 100000000 ≤ i32abs number then none
      else if 10000 < i32abs number then
        match (if i32abs number % 10000 = 0 then some []
               else format_chinese_core fuel (i32abs number % 10000)),
              format_chinese_core fuel (i32abs number / 10000) with
        | some lower_part, some upper_part =>
          some (upper_part ++ MYRIAD_MARK :: lower_part)
        | _, _ => none
      else chineseDigitLoopF ((i32abs number).natAbs + 1) (i32abs number) 0 [] := rfl

/-- A myriad-free string decodes as a single group. -/
lemma decodeHan_no_myriad (s : List Char) (h : MYRIAD_MARK ∉ s) :
    decodeHan s = decodeGroup s := by
  unfold decodeHan
  have hd : s.dropWhile (fun c => c != MYRIAD_MARK) = [] := by
    rw [List.dropWhile_eq_nil_iff]
    intro x hx
    simp only [bne_iff_ne, ne_eq]
    exact fun he => h (he ▸ hx)
  rw [hd]

/-- Splitting at the myriad marker when the upper part is free of it. -/
lemma decodeHan_split (u l : List Char) (hu : MYRIAD_MARK ∉ u) (a b : Nat)
    (hdu : decodeGroup u = some a) (hdl : decodeGroup l = some b) :
    decodeHan (u ++ MYRIAD_MARK :: l) = some (a * 10000 + b) := by
  have htake : ∀ u' : List Char, MYRIAD_MARK ∉ u' →
      (u' ++ MYRIAD_MARK :: l).takeWhile (fun c => c != MYRIAD_MARK) = u' := by
    intro u'
    induction u' with
    | nil => intro _; simp
    | cons c u'' ih =>
      intro hu'
      simp only [List.mem_cons, not_or] at hu'
      have hc : (c != MYRIAD_MARK) = true := by
        simp only [bne_iff_ne, ne_eq]
        exact fun he => hu'.1 he.symm
      simp only [List.cons_append, List.takeWhile_cons, hc, if_true]
      rw [ih hu'.2]
  have hdrop : ∀ u' : List Char, MYRIAD_MARK ∉ u' →
      (u' ++ MYRIAD_MARK :: l).dropWhile (fun c => c != MYRIAD_MARK) = MYRIAD_MARK :: l := by
    intro u'
    induction u' with
    | nil => intro _; simp
    | cons c u'' ih =>
      intro hu'
      simp only [List.mem_cons, not_or] at hu'
      have hc : (c != MYRIAD_MARK) = true := by
        simp only [bne_iff_ne, ne_eq]
        exact fun he => hu'.1 he.symm
      simp only [List.cons_append, List.dropWhile_cons, hc, if_true]
      exact ih hu'.2
  unfold decodeHan
  rw [hdrop u hu, htake u hu, hdu]
  dsimp only
  rw [hdl]

/-- In-range values up to 9999 are formatted by the digit loop alone; the
result decodes to the value, satisfies `GoodStr`, and starts with a non-zero
glyph. -/
lemma format_core_small (fuel : Nat) (n : Int) (m : Nat) (habs : i32abs n = (m : Int))
    (h1 : 1 ≤ m) (h2 : m ≤ 9999) :
    ∃ s, format_chinese_core (fuel + 1) n = some s ∧ decodeGroup s = some m ∧
      GoodStr s ∧ ∃ c t, s = c :: t ∧ c ≠ ZERO_MARK := by
  rw [format_chinese_core_succ, habs]
  rw [if_neg (by omega), if_neg (by omega), Int.natAbs_ofNat]
  obtain ⟨s, hs, hsdec, hsgood, _, hshead⟩ :=
    chineseDigitLoopF_main (m + 1) m 0 [] 0 (by omega)
      (by rw [pow_zero]; omega) rfl (by rw [pow_zero]; omega) (fun _ => rfl) goodStr_nil
  exact ⟨s, hs, by simpa using hsdec, hsgood, hshead h1⟩

/-- Values strictly between 10000 and 10^8 are formatted by the myriad split;
the two halves decode to quotient and remainder by 10000 and are `GoodStr`. -/
lemma format_core_myriad (fuel : Nat) (n : Int) (m : Nat) (habs : i32abs n = (m : Int))
    (h1 : 10000 < m) (h2 : m ≤ 99999999) :
    ∃ su sl, format_chinese_core (fuel + 1 + 1) n = some (su ++ MYRIAD_MARK :: sl) ∧
      decodeGroup su = some (m / 10000) ∧ decodeGroup sl = some (m % 10000) ∧
      GoodStr su ∧ GoodStr sl ∧ (∃ c t, su = c :: t ∧ c ≠ ZERO_MARK) ∧
      (sl = [] ∨ ∃ c t, sl = c :: t ∧ c ≠ ZERO_MARK) := by
  rw [format_chinese_core_succ, habs]
  rw [if_neg (by omega), if_pos (by omega : (10000 : Int) < (m : Int))]
  have hmodcast : ((m : Int)) % 10000 = ((m % 10000 : Nat) : Int) := by omega
  have hdivcast : ((m : Int)) / 10000 = ((m / 10000 : Nat) : Int) := by omega
  rw [hmodcast, hdivcast]
  obtain ⟨su, hsu, hsudec, hsugood, hsuhead⟩ :=
    format_core_small fuel ((m / 10000 : Nat) : Int) (m / 10000)
      (i32abs_ofNat _) (by omega) (by omega)
  by_cases hml : m % 10000 = 0
  · rw [if_pos (by omega), hsu]
    refine ⟨su, [], rfl, hsudec, ?_, hsugood, goodStr_nil, hsuhead, Or.inl rfl⟩
    rw [hml]
    rfl
  · obtain ⟨sl, hsl, hsldec, hslgood, hslhead⟩ :=
      format_core_small fuel ((m % 10000 : Nat) : Int) (m % 10000)
        (i32abs_ofNat _) (by omega) (by omega)
    rw [if_neg (by omega), hsl, hsu]
    exact ⟨su, sl, rfl, hsudec, hsldec, hsugood, hslgood, hsuhead, Or.inr hslhead⟩

/-- Claim C1: for every magnitude in [1, 99999999] the Chinese formatter
returns `some` and the output decodes back to the magnitude under the
positional-value rules.  The code violates this at exactly m = 10000 (the
myriad branch requires `abs > 10000`, so 10000 runs the digit loop, which
fails on the exponent lookup at position 4); the round trip holds at every
other magnitude, and the failure at 10000 is recorded in the last conjunct. -/
theorem C1_chinese_roundtrip (m : Nat) (h1 : 1 ≤ m) (h2 : m ≤ 99999999)
    (h3 : m ≠ 10000) :
    (∃ s, format_chinese_number (m : Int) = some s ∧ decodeHan s = some m) ∧
    format_chinese_number (10000 : Int) = none := by
  constructor
  · by_cases hsmall : m ≤ 9999
    · obtain ⟨s, hs, hsdec, hsgood, _⟩ :=
        format_core_small 1 (m : Int) m (i32abs_ofNat m) h1 hsmall
      exact ⟨s, hs, by rw [decodeHan_no_myriad s hsgood.1, hsdec]⟩
    · have hbig : 10000 < m := by omega
      obtain ⟨su, sl, hs, hsudec, hsldec, hsugood, hslgood, _, _⟩ :=
        format_core_myriad 0 (m : Int) m (i32abs_ofNat m) hbig h2
      refine ⟨su ++ MYRIAD_MARK :: sl, hs, ?_⟩
      rw [decodeHan_split su sl hsugood.1 _ _ hsudec hsldec]
      congr 1
      omega
  · decide

/-- Witness for C1 at m = 3. -/
theorem C1_chinese_roundtrip_witness :
    (∃ s, format_chinese_number ((3 : Nat) : Int) = some s ∧ decodeHan s = some 3) ∧
    format_chinese_number (10000 : Int) = none :=
  C1_chinese_roundtrip 3 (by decide) (by decide) (by decide)

/-- Claim C2 (refuted): the spec expects `format_chinese_number 10000` to be
`format_chinese_number 1` followed by the myriad marker, but the myriad
branch requires `abs > 10000` strictly, so 10000 falls into the digit loop,
reaches `exp == 4` on its leading 1, and the lookup
`EXPONENTS.chars().nth(3)` into the three-glyph table returns `None`. -/
theorem C2_myriad_boundary_bug :
    format_chinese_number (10000 : Int) = none ∧
    format_chinese_number (1 : Int) = some ['一'] :=
  ⟨by decide, by decide⟩

/-- Claim C6: a zero digit prepends the zero glyph exactly when the result so
far is non-empty and does not already start with the zero glyph, and
`format_chinese_number 1002` carries exactly one zero glyph, between the
thousands group and the units digit. -/
theorem C6_zero_digit_step (f : Nat) (abs : Int) (exp : Nat) (result : List Char)
    (h1 : 0 < abs) (h2 : abs % 10 = 0) :
    chineseDigitLoopF (f + 1) abs exp result =
      chineseDigitLoopF f (abs / 10) (exp + 1)
        (if result ≠ [] ∧ result.head? ≠ some ZERO_MARK then ZERO_MARK :: result
         else result) ∧
    format_chinese_number (1002 : Int) = some ['一', '千', '零', '二'] ∧
    (['一', '千', '零', '二'].count ZERO_MARK = 1) := by
  refine ⟨?_, by decide, by decide⟩
  simp only [chineseDigitLoopF, if_neg (show ¬ (abs ≤ 0) by omega), if_pos h2]

/-- Witness for C6 at one loop state. -/
theorem C6_zero_digit_step_witness :
    (chineseDigitLoopF (5 + 1) (30 : Int) 0 ['二'] =
      chineseDigitLoopF 5 ((30 : Int) / 10) (0 + 1)
        (if (['二'] : List Char) ≠ [] ∧ (['二'] : List Char).head? ≠ some ZERO_MARK
         then ZERO_MARK :: ['二'] else ['二'])) ∧
    format_chinese_number (1002 : Int) = some ['一', '千', '零', '二'] ∧
    (['一', '千', '零', '二'].count ZERO_MARK = 1) :=
  C6_zero_digit_step 5 30 0 ['二'] (by decide) (by decide)

/-- Claim C7: a non-zero digit is rendered with the glyph at index
`digit - 1` of the nine-glyph table, except at the thousands position where
digit 2 uses the special two-glyph; `format_chinese_number 2000` carries the
special two-glyph (not the ordinary two) immediately before the thousands
glyph. -/
theorem C7_two_mark_substitution (f : Nat) (abs : Int) (exp : Nat)
    (result : List Char) (h1 : 0 < abs) (h2 : abs % 10 ≠ 0) (h3 : exp ≤ 3) :
    (∃ digit_char exponent,
      chineseDigitLoopF (f + 1) abs exp result =
        chineseDigitLoopF f (abs / 10) (exp + 1) (digit_char :: (exponent ++ result)) ∧
      (exp = 3 ∧ abs % 10 = 2 → digit_char = TWO_MARK_FOR_THOUSANDS) ∧
      (¬ (exp = 3 ∧ abs % 10 = 2) →
        DIGITS.get? (abs % 10 - 1).toNat = some digit_char)) ∧
    format_chinese_number (2000 : Int) = some [TWO_MARK_FOR_THOUSANDS, '千'] := by
  refine ⟨?_, by decide⟩
  have hnle : ¬ (abs ≤ 0) := by omega
  obtain ⟨dc, hdcEq, hdcPos, hdcNeg⟩ :
      ∃ dc, (if exp = 3 ∧ abs % 10 = 2 then some TWO_MARK_FOR_THOUSANDS
             else DIGITS.get? (abs % 10 - 1).toNat) = some dc ∧
        (exp = 3 ∧ abs % 10 = 2 → dc = TWO_MARK_FOR_THOUSANDS) ∧
        (¬ (exp = 3 ∧ abs % 10 = 2) →
          DIGITS.get? (abs % 10 - 1).toNat = some dc) := by
    by_cases htwo : exp = 3 ∧ abs % 10 = 2
    · exact ⟨TWO_MARK_FOR_THOUSANDS, by rw [if_pos htwo], fun _ => rfl,
        fun hc => absurd htwo hc⟩
    · have hidx : (abs % 10 - 1).toNat = (abs % 10).toNat - 1 := by omega
      obtain ⟨c, hc1, _, _, _⟩ :=
        digitGlyph_exists (abs % 10).toNat (by omega) (by omega)
      have hcc : DIGITS.get? (abs % 10 - 1).toNat = some c := by rw [hidx]; exact hc1
      exact ⟨c, by rw [if_neg htwo, hcc], fun hcon => absurd hcon htwo, fun _ => hcc⟩
  by_cases hexp0 : exp = 0
  · refine ⟨dc, [], ?_, hdcPos, hdcNeg⟩
    simp only [chineseDigitLoopF, if_neg hnle, if_neg h2, hdcEq, if_pos hexp0]
  · obtain ⟨e, he1, _, _, _⟩ := expGlyph_exists exp (by omega) h3
    refine ⟨dc, [e], ?_, hdcPos, hdcNeg⟩
    simp only [chineseDigitLoopF, if_neg hnle, if_neg h2, hdcEq, if_neg hexp0, he1,
      Option.map_some']

/-- Witness for C7 at the thousands position with digit 2. -/
theorem C7_two_mark_substitution_witness :
    (∃ digit_char exponent,
      chineseDigitLoopF (5 + 1) (22 : Int) 3 [] =
        chineseDigitLoopF 5 ((22 : Int) / 10) (3 + 1) (digit_char :: (exponent ++ [])) ∧
      ((3 : Nat) = 3 ∧ (22 : Int) % 10 = 2 → digit_char = TWO_MARK_FOR_THOUSANDS) ∧
      (¬ ((3 : Nat) = 3 ∧ (22 : Int) % 10 = 2) →
        DIGITS.get? ((22 : Int) % 10 - 1).toNat = some digit_char)) ∧
    format_chinese_number (2000 : Int) = some [TWO_MARK_FOR_THOUSANDS, '千'] :=
  C7_two_mark_substitution 5 22 3 [] (by decide) (by decide) (by decide)

/-- Claim C10: every string the Chinese formatter returns neither begins nor
ends with the zero glyph and has no two adjacent zero glyphs, including
across the myriad boundary. -/
theorem C10_no_zero_runs (n : Int) (s : List Char)
    (h : format_chinese_number n = some s) :
    s.head? ≠ some ZERO_MARK ∧ s.getLast? ≠ some ZERO_MARK ∧
      List.Chain' (fun a b => ¬(a = ZERO_MARK ∧ b = ZERO_MARK)) s := by
  by_cases hmin : n = -2147483648
  · subst hmin
    have hval : format_chinese_number (-2147483648) = some [] := by decide
    rw [hval] at h
    obtain rfl : ([] : List Char) = s := Option.some.inj h
    exact ⟨by simp, by simp, by simp⟩
  · have habs : i32abs n = (n.natAbs : Int) := i32abs_eq_natAbs n hmin
    rcases Nat.lt_or_ge n.natAbs 1 with h1 | h1
    · exfalso
      have hnone : format_chinese_number n = none := by
        show format_chinese_core (1 + 1) n = none
        rw [format_chinese_core_succ, habs, if_pos (by omega)]
      rw [hnone] at h
      exact Option.noConfusion h
    rcases Nat.lt_or_ge (99999999 : Nat) n.natAbs with h2 | h2
    · exfalso
      have hnone : format_chinese_number n = none := by
        show format_chinese_core (1 + 1) n = none
        rw [format_chinese_core_succ, habs, if_pos (by omega)]
      rw [hnone] at h
      exact Option.noConfusion h
    by_cases hsmall : n.natAbs ≤ 9999
    · obtain ⟨s', hs', _, hsgood, hhead⟩ := format_core_small 1 n n.natAbs habs h1 hsmall
      have h' : format_chinese_core (1 + 1) n = some s := h
      have hss : s' = s := by rw [hs'] at h'; exact Option.some.inj h'
      subst hss
      obtain ⟨c, t, hct, hcz⟩ := hhead
      refine ⟨?_, hsgood.2.1, hsgood.2.2⟩
      rw [hct, List.head?_cons]
      simp only [ne_eq, Option.some.injEq]
      exact hcz
    · by_cases h10k : n.natAbs = 10000
      · exfalso
        have hnone : format_chinese_number n = none := by
          show format_chinese_core (1 + 1) n = none
          rw [format_chinese_core_succ, habs, h10k]
          rw [if_neg (by omega), if_neg (by omega), Int.natAbs_ofNat]
          decide
        rw [hnone] at h
        exact Option.noConfusion h
      · have hbig : 10000 < n.natAbs := by omega
        obtain ⟨su, sl, hs', hsudec, hsldec, hsugood, hslgood, hsuhead, hslhead⟩ :=
          format_core_myriad 0 n n.natAbs habs hbig h2
        have h' : format_chinese_core (0 + 1 + 1) n = some s := h
        have hss : su ++ MYRIAD_MARK :: sl = s := by
          rw [hs'] at h'; exact Option.some.inj h'
        subst hss
        obtain ⟨c, t, hct, hcz⟩ := hsuhead
        refine ⟨?_, ?_, ?_⟩
        · rw [hct]
          simp only [List.cons_append, List.head?_cons, ne_eq, Option.some.injEq]
          exact hcz
        · rw [List.getLast?_append_of_ne_nil su (by simp)]
          rcases hslhead with rfl | ⟨c', t', hct', hcz'⟩
          · simp only [List.getLast?_singleton, ne_eq, Option.some.injEq]
            decide
          · rw [hct', List.getLast?_cons_cons, ← hct']
            exact hslgood.2.1
        · rw [List.chain'_append]
          refine ⟨hsugood.2.2, ?_, ?_⟩
          · rw [List.chain'_cons']
            refine ⟨fun y hy => ?_, hslgood.2.2⟩
            rintro ⟨hzz, -⟩
            exact absurd hzz (by decide)
          · intro x hx y hy
            simp only [List.head?_cons, Option.mem_def, Option.some.injEq] at hy
            subst hy
            rintro ⟨-, hzz⟩
            exact absurd hzz (by decide)

/-- Witness for C10 at input 1002. -/
theorem C10_no_zero_runs_witness :
    (['一', '千', '零', '二'] : List Char).head? ≠ some ZERO_MARK ∧
    (['一', '千', '零', '二'] : List Char).getLast? ≠ some ZERO_MARK ∧
      List.Chain' (fun a b => ¬(a = ZERO_MARK ∧ b = ZERO_MARK))
        ['一', '千', '零', '二'] :=
  C10_no_zero_runs 1002 ['一', '千', '零', '二'] (by decide)

/-- Claim C4: the Latin tier is chosen purely from the trailing-zero count
`T` (the unique `T` with `10 ^ T ∣ m` and `¬ 10 ^ (T + 1) ∣ m`): tier
`T / 3 = 0` prints the full decimal digits, tier 1 prints `m / 1000`
suffixed `k`, tier 2 prints `m / 1000000` suffixed `m`; in particular
1000 → "1k", 2000000 → "2m", 1234 → "1234" and 12300 → "12300". -/
theorem C4_latin_tiering (m T : Nat) (h1 : 1 ≤ m) (h2 : m ≤ 99999999)
    (hT1 : 10 ^ T ∣ m) (hT2 : ¬ 10 ^ (T + 1) ∣ m) :
    (T / 3 = 0 → format_latin_number (m : Int) = some (Nat.toDigits 10 m)) ∧
    (T / 3 = 1 →
      format_latin_number (m : Int) = some (Nat.toDigits 10 (m / 1000) ++ ['k'])) ∧
    (T / 3 = 2 →
      format_latin_number (m : Int) = some (Nat.toDigits 10 (m / 1000000) ++ ['m'])) ∧
    format_latin_number (1000 : Int) = some ['1', 'k'] ∧
    format_latin_number (2000000 : Int) = some ['2', 'm'] ∧
    format_latin_number (1234 : Int) = some ['1', '2', '3', '4'] ∧
    format_latin_number (12300 : Int) = some ['1', '2', '3', '0', '0'] := by
  have habs : i32abs (m : Int) = (m : Int) := i32abs_ofNat m
  have hTeq : maxExpLoopF (m + 1) (m : Int) 0 = T := by
    obtain ⟨T0, hT0, hd1, hd2⟩ := maxExpLoopF_spec (m + 1) m 0 (by omega) (by omega)
    have := trailingZeros_unique m T0 T hd1 hd2 hT1 hT2
    omega
  have hstr : ∀ k : Nat, intToString ((k : Nat) : Int) = Nat.toDigits 10 k := by
    intro k
    unfold intToString
    rw [if_neg (by omega), Int.natAbs_ofNat]
  have hunfold : format_latin_number (m : Int) =
      (match T / 3 with
       | 0 => some (intToString (m : Int))
       | 1 => some (intToString ((m : Int) / 1000) ++ ['k'])
       | 2 => some (intToString ((m : Int) / 1000000) ++ ['m'])
       | _ + 3 => none) := by
    simp only [format_latin_number, habs, Int.natAbs_ofNat]
    rw [if_neg (by omega), hTeq]
  refine ⟨?_, ?_, ?_, by decide, by decide, by decide, by decide⟩
  · intro hk
    rw [hunfold, hk]
    show some (intToString ((m : Nat) : Int)) = some (Nat.toDigits 10 m)
    rw [hstr m]
  · intro hk
    rw [hunfold, hk]
    show some (intToString ((m : Int) / 1000) ++ ['k'])
      = some (Nat.toDigits 10 (m / 1000) ++ ['k'])
    have hc : (m : Int) / 1000 = ((m / 1000 : Nat) : Int) := by omega
    rw [hc, hstr (m / 1000)]
  · intro hk
    rw [hunfold, hk]
    show some (intToString ((m : Int) / 1000000) ++ ['m'])
      = some (Nat.toDigits 10 (m / 1000000) ++ ['m'])
    have hc : (m : Int) / 1000000 = ((m / 1000000 : Nat) : Int) := by omega
    rw [hc, hstr (m / 1000000)]

/-- Witness for C4 at m = 1000, whose trailing-zero count is 3. -/
theorem C4_latin_tiering_witness :
    ((3 : Nat) / 3 = 0 → format_latin_number ((1000 : Nat) : Int)
        = some (Nat.toDigits 10 1000)) ∧
    ((3 : Nat) / 3 = 1 → format_latin_number ((1000 : Nat) : Int)
        = some (Nat.toDigits 10 (1000 / 1000) ++ ['k'])) ∧
    ((3 : Nat) / 3 = 2 → format_latin_number ((1000 : Nat) : Int)
        = some (Nat.toDigits 10 (1000 / 1000000) ++ ['m'])) ∧
    format_latin_number (1000 : Int) = some ['1', 'k'] ∧
    format_latin_number (2000000 : Int) = some ['2', 'm'] ∧
    format_latin_number (1234 : Int) = some ['1', '2', '3', '4'] ∧
    format_latin_number (12300 : Int) = some ['1', '2', '3', '0', '0'] :=
  C4_latin_tiering 1000 3 (by decide) (by decide) (by decide) (by decide)

/-- Claim C9: the Latin formatter is total on magnitudes in [1, 99999999]:
the `tier ≥ 3` branch returning `None` is unreachable there, because such a
value has at most 7 trailing zero digits. -/
theorem C9_latin_total (m : Nat) (h1 : 1 ≤ m) (h2 : m ≤ 99999999) :
    (format_latin_number (m : Int)).isSome = true := by
  have habs : i32abs (m : Int) = (m : Int) := i32abs_ofNat m
  obtain ⟨T0, hT0, hd1, hd2⟩ := maxExpLoopF_spec (m + 1) m 0 (by omega) (by omega)
  have hT7 : T0 ≤ 7 := by
    by_contra hgt
    have hdvd8 : (10 : Nat) ^ 8 ∣ m := dvd_trans (pow_dvd_pow 10 (by omega)) hd1
    have hle := Nat.le_of_dvd (by omega) hdvd8
    have hpow : (10 : Nat) ^ 8 = 100000000 := by norm_num
    omega
  simp only [format_latin_number, habs, Int.natAbs_ofNat]
  rw [if_neg (by omega), hT0, Nat.zero_add]
  have hcases : T0 / 3 = 0 ∨ T0 / 3 = 1 ∨ T0 / 3 = 2 := by omega
  rcases hcases with hc | hc | hc <;> rw [hc] <;> rfl

/-- Witness for C9 at m = 10000000 (seven trailing zeros, tier 2). -/
theorem C9_latin_total_witness :
    (format_latin_number ((10000000 : Nat) : Int)).isSome = true :=
  C9_latin_total 10000000 (by decide) (by decide)

/-- Claim C3 (refuted): for a 12-character `chinese_number` (reachable, e.g.
from amount +152345) the split position is computed in characters
((12 + 4) / 2 = 8, then incremented to 9 because character 8 is the hundreds
glyph), but `str::split_at` consumes it as a byte index; byte 9 of the UTF-8
string (1-byte sign followed by 3-byte CJK characters) is not a character
boundary, so the render panics instead of emitting the two lines. -/
theorem C3_split_byte_panic :
    format_chinese_number (152345 : Int) =
      some ['一', '十', '五', '万', '两', '千', '三', '百', '四', '十', '五'] ∧
    format_latin_number (152345 : Int) = some ['1', '5', '2', '3', '4', '5'] ∧
    (['+', '一', '十', '五', '万', '两', '千', '三', '百', '四', '十', '五'] :
      List Char).length = 12 ∧
    plan_layout ['+', '1', '5', '2', '3', '4', '5']
      ['+', '一', '十', '五', '万', '两', '千', '三', '百', '四', '十', '五'] =
      PlanOutcome.panicked :=
  ⟨by decide, by decide, by decide, by decide⟩

/-- Claim C5: the layout decision table for `chinese_number` lengths up to
11, together with the independently computed Latin line (short suffix iff
its length exceeds 7, Small font with base y 75 iff its length exceeds 4,
else Large with base y 80, drawn at base y plus the Chinese comp). -/
theorem C5_layout_table (latin_number chinese_number : List Char) :
    (chinese_number.length ≤ 4 →
      plan_layout latin_number chinese_number = PlanOutcome.ok
        [⟨chinese_number ++ CHINESE_SUFFIX, FontTier.Large, 160, 140⟩,
         ⟨latin_number ++ ' ' ::
            (if latin_number.length > 7 then LATIN_SUFFIX_SHORT else LATIN_SUFFIX_FULL),
          if latin_number.length > 4 then FontTier.Small else FontTier.Large, 160,
          (if latin_number.length > 4 then (75 : Int) else 80) + 0⟩]) ∧
    (chinese_number.length = 5 →
      plan_layout latin_number chinese_number = PlanOutcome.ok
        [⟨chinese_number ++ CHINESE_SUFFIX, FontTier.Medium, 160, 140⟩,
         ⟨latin_number ++ ' ' ::
            (if latin_number.length > 7 then LATIN_SUFFIX_SHORT else LATIN_SUFFIX_FULL),
          if latin_number.length > 4 then FontTier.Small else FontTier.Large, 160,
          (if latin_number.length > 4 then (75 : Int) else 80) + 0⟩]) ∧
    (chinese_number.length = 6 →
      plan_layout latin_number chinese_number = PlanOutcome.ok
        [⟨chinese_number ++ CHINESE_SUFFIX, FontTier.Small, 160, 140⟩,
         ⟨latin_number ++ ' ' ::
            (if latin_number.length > 7 then LATIN_SUFFIX_SHORT else LATIN_SUFFIX_FULL),
          if latin_number.length > 4 then FontTier.Small else FontTier.Large, 160,
          (if latin_number.length > 4 then (75 : Int) else 80) + 0⟩]) ∧
    (chinese_number.length = 7 →
      plan_layout latin_number chinese_number = PlanOutcome.ok
        [⟨chinese_number ++ CHINESE_SUFFIX, FontTier.Pico, 160, 135⟩,
         ⟨latin_number ++ ' ' ::
            (if latin_number.length > 7 then LATIN_SUFFIX_SHORT else LATIN_SUFFIX_FULL),
          if latin_number.length > 4 then FontTier.Small else FontTier.Large, 160,
          (if latin_number.length > 4 then (75 : Int) else 80) + 10⟩]) ∧
    (8 ≤ chinese_number.length → chinese_number.length ≤ 11 →
      plan_layout latin_number chinese_number = PlanOutcome.ok
        [⟨chinese_number, FontTier.Pico, 160, 110⟩,
         ⟨CHINESE_SUFFIX, FontTier.Pico, 160, 145⟩,
         ⟨latin_number ++ ' ' ::
            (if latin_number.length > 7 then LATIN_SUFFIX_SHORT else LATIN_SUFFIX_FULL),
          if latin_number.length > 4 then FontTier.Small else FontTier.Large, 160,
          (if latin_number.length > 4 then (75 : Int) else 80) + 0⟩]) := by
  refine ⟨fun h => ?_, fun h => ?_, fun h => ?_, fun h => ?_, fun h h' => ?_⟩
  · simp only [plan_layout, if_pos h]
    rfl
  · simp only [plan_layout, if_neg (show ¬ chinese_number.length ≤ 4 by omega),
      if_pos h]
    rfl
  · simp only [plan_layout, if_neg (show ¬ chinese_number.length ≤ 4 by omega),
      if_neg (show ¬ chinese_number.length = 5 by omega), if_pos h]
    rfl
  · simp only [plan_layout, if_neg (show ¬ chinese_number.length ≤ 4 by omega),
      if_neg (show ¬ chinese_number.length = 5 by omega),
      if_neg (show ¬ chinese_number.length = 6 by omega), if_pos h]
    rfl
  · simp only [plan_layout, if_neg (show ¬ chinese_number.length ≤ 4 by omega),
      if_neg (show ¬ chinese_number.length = 5 by omega),
      if_neg (show ¬ chinese_number.length = 6 by omega),
      if_neg (show ¬ chinese_number.length = 7 by omega),
      if_pos (show chinese_number.length ≤ 11 from h')]
    rfl

/-- Witness for C5 at a length-2 pair. -/
theorem C5_layout_table_witness :
    plan_layout ['+', '1'] ['+', '一'] = PlanOutcome.ok
      [⟨['+', '一'] ++ CHINESE_SUFFIX, FontTier.Large, 160, 140⟩,
       ⟨['+', '1'] ++ ' ' ::
          (if (['+', '1'] : List Char).length > 7 then LATIN_SUFFIX_SHORT
           else LATIN_SUFFIX_FULL),
        if (['+', '1'] : List Char).length > 4 then FontTier.Small else FontTier.Large,
        160,
        (if (['+', '1'] : List Char).length > 4 then (75 : Int) else 80) + 0⟩] :=
  (C5_layout_table ['+', '1'] ['+', '一']).1 (by decide)

/-- Claim C8: for i32 inputs of magnitude 0 or at least 10^8 both formatters
return `none`, and a `none` from either formatter makes `render_number`
return `none` before any rendering.  The code violates the first half at
exactly `i32::MIN`: `(-2147483648).abs()` overflows (release builds wrap it
back to the negative value, which then slips past the `abs >= 100000000`
guard; debug builds panic), so `format_latin_number` returns the full
decimal string and `format_chinese_number` returns the empty string — the
last two conjuncts record that failure. -/
theorem C8_unsupported_magnitude (n : Int) (hlo : -2147483648 ≤ n)
    (hhi : n ≤ 2147483647) (hmag : n.natAbs = 0 ∨ 100000000 ≤ n.natAbs)
    (hne : n ≠ -2147483648) :
    (format_latin_number n = none ∧ format_chinese_number n = none ∧
      ∀ sig, render_number n sig = none) ∧
    (∀ k : Int, ∀ sig : List Char,
      format_chinese_number k = none ∨ format_latin_number k = none →
        render_number k sig = none) ∧
    format_latin_number (-2147483648) = some ('-' :: Nat.toDigits 10 2147483648) ∧
    format_chinese_number (-2147483648) = some [] := by
  have habs : i32abs n = (n.natAbs : Int) := i32abs_eq_natAbs n hne
  have hlat : format_latin_number n = none := by
    simp only [format_latin_number, habs]
    rw [if_pos (by omega)]
  have hchi : format_chinese_number n = none := by
    show format_chinese_core (1 + 1) n = none
    rw [format_chinese_core_succ, habs, if_pos (by omega)]
  refine ⟨⟨hlat, hchi, fun sig => ?_⟩, fun k sig hk => ?_, by decide, by decide⟩
  · unfold render_number
    rw [hchi]
  · rcases hk with hk | hk
    · unfold render_number
      rw [hk]
    · unfold render_number
      cases hc : format_chinese_number k with
      | none => rfl
      | some ch =>
        show (match format_latin_number k with
              | none => none
              | some latin_number =>
                some (plan_layout (sig ++ latin_number) (sig ++ ch))) = none
        rw [hk]

/-- Witness for C8 at n = 200000000. -/
theorem C8_unsupported_magnitude_witness :
    (format_latin_number (200000000 : Int) = none ∧
      format_chinese_number (200000000 : Int) = none ∧
      ∀ sig, render_number (200000000 : Int) sig = none) ∧
    (∀ k : Int, ∀ sig : List Char,
      format_chinese_number k = none ∨ format_latin_number k = none →
        render_number k sig = none) ∧
    format_latin_number (-2147483648) = some ('-' :: Nat.toDigits 10 2147483648) ∧
    format_chinese_number (-2147483648) = some [] :=
  C8_unsupported_magnitude 200000000 (by decide) (by decide) (by decide) (by decide)
